import Mathlib

/-!
Shallow embedding of the roquin-iclip analysis utilities
(`src/analyses/ora-gene-enrichment/lib/gene_enrichment_utils.py` and
`src/figures/figure-1/panel_d_bs_4tx_pie_chart.py`) together with proofs
about the over-representation analysis (ORA) pipeline, the identifier
conversion helper, the enrichment scatter-plot row selection and the
pie-chart aggregation.

Modelling conventions:
* Python sets over gene identifiers become duplicate-free lists
  (`List.dedup` based); only cardinalities and membership matter.
* Python dicts become association lists that keep insertion order
  (`gene_sets.items()` iterates in insertion order).
* Floating point arithmetic is modelled exactly over `ℚ`.  Division is
  expressed through `Rat.divInt` / `qdiv` (provably equal to `/` on `ℚ`)
  so that all values are computable by kernel reduction.
* `pandas.DataFrame` column operations become operations on lists of
  records; `scipy.stats.hypergeom.sf(k - 1, N, K, n)` is embedded by its
  mathematical meaning, the upper tail `P(X ≥ k)` of the hypergeometric
  distribution; `statsmodels.stats.multitest.multipletests(·, method =
  (fdr bh))` is embedded step by step (argsort, `p·m/(i+1)`, reverse
  cumulative minimum, clip at 1, scatter back).
* Fallible code paths (pandas `KeyError`s) are modelled with `Except`.
-/

/-- Exact division on `ℚ`, written so that it evaluates by kernel
reduction (`a / b = (a.num * b.den) / (a.den * b.num)`; division by zero
yields 0, matching the `ℚ` convention). Proved equal to `· / ·` in
`qdiv_eq_div`. -/
def qdiv (a b : ℚ) : ℚ := Rat.divInt (a.num * b.den) (a.den * b.num)

/-- Embedding of `set(xs) & set(ys)`: a duplicate-free list representing
the intersection of the two collections. -/
def setInter {α : Type} [DecidableEq α] (xs ys : List α) : List α :=
  xs.dedup.filter (fun a => decide (a ∈ ys))

/-- Probability mass function of the hypergeometric distribution with
population `N`, `K` success states and `n` draws, evaluated at `i`
(meaningful for `i ≤ min n K`):
`P(X = i) = C(K, i) * C(N - K, n - i) / C(N, n)`. -/
def hypergeomPMF (N K n i : ℕ) : ℚ :=
  Rat.divInt (K.choose i * (N - K).choose (n - i) : ℕ) (N.choose n : ℕ)

/-- Upper tail `P(X ≥ k)` of the hypergeometric distribution: the sum of
the pmf over the part of the support at or above `k`.  This is the
mathematical meaning of `scipy.stats.hypergeom.sf(k - 1, N, K, n)`. -/
def hypergeomTail (N K n k : ℕ) : ℚ :=
  ∑ i ∈ Finset.Icc k (min n K), hypergeomPMF N K n i

/-- Per-term p-value of `perform_ora`: `1.0` when `K = 0`, otherwise the
hypergeometric survival probability `P(X ≥ k)`. -/
def oraPValue (k K n N : ℕ) : ℚ :=
  if K = 0 then 1 else hypergeomTail N K n k

/-- One entry of the `results` list built by the loop of `perform_ora`. -/
structure OraRecord (α : Type) where
  term : String
  k : ℕ
  K : ℕ
  n : ℕ
  N : ℕ
  p_value : ℚ
  study_genes : List α
deriving DecidableEq

/-- The record appended to `results` for a single `(term, genes)` pair of
`gene_sets` inside the loop of `perform_ora`. -/
def oraRecord {α : Type} [DecidableEq α] (study bg : List α) (term : String)
    (genes : List α) : OraRecord α :=
  let n := (setInter study bg).length
  let N := bg.dedup.length
  let termGenes := setInter genes bg
  let K := termGenes.length
  let sg := setInter study termGenes
  let k := sg.length
  { term := term, k := k, K := K, n := n, N := N
    p_value := oraPValue k K n N, study_genes := sg }

/-- The full `results` list of `perform_ora`, one record per term of
`gene_sets`, in insertion order. -/
def oraRecords {α : Type} [DecidableEq α] (study : List α)
    (gene_sets : List (String × List α)) (bg : List α) : List (OraRecord α) :=
  gene_sets.map (fun ts => oraRecord study bg ts.1 ts.2)

/-- Association lookup by original index, used to scatter the BH-adjusted
values back to their original positions
(`pvals_corrected_[sortind] = pvals_corrected`). -/
def findVal (j : ℕ) : List (ℕ × ℚ) → Option ℚ
  | [] => none
  | (i, q) :: rest => if i = j then some q else findVal j rest

/-- Core of the Benjamini-Hochberg correction of
`statsmodels.stats.multitest.multipletests(method = fdr bh)`: walking the
(index, p) pairs in ascending p order, position `i` out of `m` tests maps
`p` to `p * m / (i + 1)` and the running minimum from the end is taken
(`np.minimum.accumulate` on the reversed array). -/
def bhCore (m : ℕ) : ℕ → List (ℕ × ℚ) → List (ℕ × ℚ)
  | _, [] => []
  | i, (j, p) :: rest =>
    let rest' := bhCore m (i + 1) rest
    let raw := qdiv (p * (m : ℚ)) ((i + 1 : ℕ) : ℚ)
    match rest' with
    | [] => [(j, raw)]
    | (j', q') :: t => (j, min raw q') :: (j', q') :: t

instance : DecidableRel (fun a b : ℕ × ℚ => a.2 ≤ b.2) :=
  fun a b => inferInstanceAs (Decidable (a.2 ≤ b.2))

instance : IsTotal (ℕ × ℚ) (fun a b => a.2 ≤ b.2) :=
  ⟨fun a b => le_total a.2 b.2⟩

instance : IsTrans (ℕ × ℚ) (fun a b => a.2 ≤ b.2) :=
  ⟨fun _ _ _ h h' => le_trans h h'⟩

/-- The argsort stage of the BH correction: the (original index, p) pairs
in ascending p order. -/
def bhSorted (ps : List ℚ) : List (ℕ × ℚ) :=
  List.insertionSort (fun a b : ℕ × ℚ => a.2 ≤ b.2)
    ((List.range ps.length).zip ps)

/-- The corrected values in sorted order, clipped at 1
(`pvals_corrected[pvals_corrected > 1] = 1`), still paired with their
original indices. -/
def bhAdj (ps : List ℚ) : List (ℕ × ℚ) :=
  (bhCore ps.length 0 (bhSorted ps)).map (fun jq => (jq.1, min jq.2 1))

/-- Benjamini-Hochberg adjusted p-values in original order, as computed by
`multipletests(pvals, method = fdr bh)`. -/
def bhAdjust (ps : List ℚ) : List ℚ :=
  (List.range ps.length).map (fun j => (findVal j (bhAdj ps)).getD 1)

/-- One row of the table returned by `perform_ora` after the final column
selection (`term, study_count, background_count, p_value, FDR,
study_genes`; `study_count` and `background_count` are copies of the `k`
and `K` columns). -/
structure OutRow (α : Type) where
  term : String
  study_count : ℕ
  background_count : ℕ
  p_value : ℚ
  FDR : ℚ
  study_genes : List α
deriving DecidableEq

/-- Builds an output row from a loop record and its FDR-adjusted
p-value. -/
def mkOutRow {α : Type} (rec : OraRecord α) (fdr : ℚ) : OutRow α :=
  { term := rec.term, study_count := rec.k, background_count := rec.K
    p_value := rec.p_value, FDR := fdr, study_genes := rec.study_genes }

/-- The rows of the results table right after the FDR column is attached
(`results_df[dq]FDR[dq] = fdrs`), before sorting and filtering. -/
def annotatedRows {α : Type} [DecidableEq α] (study : List α)
    (gene_sets : List (String × List α)) (bg : List α) : List (OutRow α) :=
  ((oraRecords study gene_sets bg).zip
      (bhAdjust ((oraRecords study gene_sets bg).map OraRecord.p_value))).map
    (fun rf => mkOutRow rf.1 rf.2)

instance {α : Type} : DecidableRel (fun a b : OutRow α => a.FDR ≤ b.FDR) :=
  fun a b => inferInstanceAs (Decidable (a.FDR ≤ b.FDR))

instance {α : Type} : IsTotal (OutRow α) (fun a b => a.FDR ≤ b.FDR) :=
  ⟨fun a b => le_total a.FDR b.FDR⟩

instance {α : Type} : IsTrans (OutRow α) (fun a b => a.FDR ≤ b.FDR) :=
  ⟨fun _ _ _ h h' => le_trans h h'⟩

/-- Significance threshold used by `perform_ora` (`FDR ≤ 0.05`). -/
def fdrThreshold : ℚ := Rat.divInt 1 20

/-- Error value modelling the `KeyError` raised on the empty-`gene_sets`
path: with an empty `results` list, `pd.DataFrame(results)` has no
columns, so the subsequent p-value column access raises. -/
def emptyGeneSetsError : String := "KeyError"

/-- Embedding of `perform_ora(study_genes, gene_sets, background_genes)`:
per-term hypergeometric records, Benjamini-Hochberg correction, sort
ascending by FDR, keep rows with `FDR ≤ 0.05`. -/
def perform_ora {α : Type} [DecidableEq α] (study : List α)
    (gene_sets : List (String × List α)) (bg : List α) :
    Except String (List (OutRow α)) :=
  if gene_sets = [] then Except.error emptyGeneSetsError
  else
    Except.ok
      (((annotatedRows study gene_sets bg).insertionSort
          (fun a b => a.FDR ≤ b.FDR)).filter
        (fun r => decide (r.FDR ≤ fdrThreshold)))

/-- Association-list lookup, the embedding of Python dict indexing for
string-keyed mappings. -/
def assocFind {β : Type} (g : String) : List (String × β) → Option β
  | [] => none
  | (k, v) :: rest => if k = g then some v else assocFind g rest

/-- `gene.split(".")[0]` of `convert_ensembl_id`: the prefix of the
identifier before the first dot (the whole identifier when it has no
dot). -/
def stripVersion (s : String) : String :=
  String.mk (s.data.takeWhile (fun c => decide (c ≠ '.')))

/-- Embedding of `convert_ensembl_id(ensembl_ids, ensembl_map)`: strip
version suffixes, then keep the mapped values of the identifiers that are
keys of the mapping (`[m[e] for e in ids if e in m]`).  The function is
total: unmapped identifiers are dropped, never an error. -/
def convert_ensembl_id (ids : List String)
    (emap : List (String × String)) : List String :=
  (ids.map stripVersion).filterMap (fun g => assocFind g emap)

/-- The conversion contract as the specification words it: of the
version-stripped identifiers, in input order, exactly those that are keys
of the mapping, each replaced by its mapped value. -/
def convertSpecification (ids : List String)
    (emap : List (String × String)) : List String :=
  ((ids.map stripVersion).filter (fun g => (assocFind g emap).isSome)).map
    (fun g => (assocFind g emap).getD g)

/-- One row of the data frame handed to `plot_enrichment_scatter`
(columns actually used: the x/study-count column, the background-count
column and the p-value column, plus the y label). -/
structure ScatterRow where
  name : String
  study_count : ℕ
  background_count : ℕ
  pvalue : ℚ
deriving DecidableEq

/-- `data[x_column] / data[bg_count_column]`, the per-term ratio used for
ranking in `plot_enrichment_scatter`. -/
def ratio_in_study (r : ScatterRow) : ℚ :=
  qdiv (r.study_count : ℚ) (r.background_count : ℚ)

instance :
    DecidableRel (fun a b : ScatterRow => ratio_in_study a ≤ ratio_in_study b) :=
  fun a b => inferInstanceAs (Decidable (ratio_in_study a ≤ ratio_in_study b))

instance : IsTotal ScatterRow (fun a b => ratio_in_study a ≤ ratio_in_study b) :=
  ⟨fun a b => le_total (ratio_in_study a) (ratio_in_study b)⟩

instance : IsTrans ScatterRow (fun a b => ratio_in_study a ≤ ratio_in_study b) :=
  ⟨fun _ _ _ h h' => le_trans h h'⟩

/-- The data frame of `plot_enrichment_scatter` after the
`min_study_count` filter, the optional `max_pval` filter, and the
ascending sort by `ratio_in_study`. -/
def scatterSorted (rows : List ScatterRow) (min_study_count : ℕ)
    (max_pval : Option ℚ) : List ScatterRow :=
  let d1 : List ScatterRow :=
    rows.filter (fun r => decide (min_study_count ≤ r.study_count))
  let d2 : List ScatterRow :=
    match max_pval with
    | none => d1
    | some mp => d1.filter (fun r => decide (r.pvalue ≤ mp))
  d2.insertionSort (fun a b => ratio_in_study a ≤ ratio_in_study b)

/-- The rows `plot_enrichment_scatter` finally plots: `data.head(top_n)`
is applied only when `top_n` is truthy (`if top_n:` — neither `None` nor
0). -/
def scatterRows (rows : List ScatterRow) (min_study_count : ℕ)
    (max_pval : Option ℚ) (top_n : Option ℕ) : List ScatterRow :=
  match top_n with
  | none => scatterSorted rows min_study_count max_pval
  | some t =>
      if t = 0 then scatterSorted rows min_study_count max_pval
      else (scatterSorted rows min_study_count max_pval).take t

/-- Strict code-point lexicographic comparison of character lists. -/
def strLtB : List Char → List Char → Bool
  | [], [] => false
  | [], _ :: _ => true
  | _ :: _, [] => false
  | c :: a, d :: b =>
      if c.toNat < d.toNat then true
      else if d.toNat < c.toNat then false
      else strLtB a b

/-- Code-point lexicographic order on strings, the order pandas uses for
sorted group keys of string indices. -/
def strLeB (a b : String) : Bool := !(strLtB b.data a.data)

instance : DecidableRel (fun a b : String => strLeB a b = true) :=
  fun a b => inferInstanceAs (Decidable (strLeB a b = true))

/-- `x.split(";")[0]` of the pie-chart script: the transcript-region
token of the `name` field before the first semicolon. -/
def txRegion (s : String) : String :=
  String.mk (s.data.takeWhile (fun c => decide (c ≠ ';')))

/-- `bs.groupby("tx_region")["chr"].count()`: the number of rows per
region category, with the category index in sorted order (pandas
`groupby` sorts group keys). -/
def categoryCounts (names : List String) : List (String × ℕ) :=
  ((names.map txRegion).dedup.insertionSort
      (fun a b => strLeB a b = true)).map
    (fun c => (c, ((names.map txRegion).filter (fun x => decide (x = c))).length))

/-- The three region categories removed before plotting. -/
def droppedCategories : List String := ["exon", "start_codon", "stop_codon"]

/-- Error value modelling the `KeyError` pandas raises when
`Series.drop(labels)` or `bs[label]` does not find a label. -/
def pieKeyError : String := "KeyError"

/-- `bs.drop(["exon", "start_codon", "stop_codon"])`: removes the three
categories from the counts; pandas raises a `KeyError` when any of the
three is absent from the index. -/
def dropCategories (counts : List (String × ℕ)) :
    Except String (List (String × ℕ)) :=
  if droppedCategories.all (fun c => counts.any (fun p => decide (p.1 = c))) then
    Except.ok (counts.filter (fun p => decide (p.1 ∉ droppedCategories)))
  else Except.error pieKeyError

/-- The per-category counts used for the pie chart and the legend:
grouped counts with the three uninteresting categories dropped. -/
def pieCounts (names : List String) : Except String (List (String × ℕ)) :=
  dropCategories (categoryCounts names)

/-- `renamed_columns` of the pie-chart script. -/
def renamedColumns : List String := ["CDS", "5\x27UTR", "Intron", "3\x27UTR"]

/-- `bs.rename(index=dict(zip(bs.index, renamed_columns)))`: positional
rename of the remaining (sorted) index entries to the four display
names. -/
def renameCounts (counts : List (String × ℕ)) : List (String × ℕ) :=
  counts.map (fun p =>
    ((assocFind p.1 ((counts.map Prod.fst).zip renamedColumns)).getD p.1, p.2))

/-- The legend labels: for each display name the label shows the absolute
count of its category; the `bs[label]` access raises a `KeyError` when a
display name is missing from the renamed index. -/
def legendLabels (counts : List (String × ℕ)) : Except String (List String) :=
  if renamedColumns.all
      (fun c => (renameCounts counts).any (fun p => decide (p.1 = c))) then
    Except.ok (renamedColumns.map (fun c =>
      c ++ " (n=" ++ Nat.repr ((assocFind c (renameCounts counts)).getD 0) ++ ")"))
  else Except.error pieKeyError

instance {ε β : Type} [DecidableEq ε] [DecidableEq β] :
    DecidableEq (Except ε β) := fun x y =>
  match x, y with
  | Except.error a, Except.error b =>
      if h : a = b then isTrue (by rw [h])
      else isFalse (fun hc => h (Except.error.injEq a b ▸ hc))
  | Except.ok a, Except.ok b =>
      if h : a = b then isTrue (by rw [h])
      else isFalse (fun hc => h (Except.ok.injEq a b ▸ hc))
  | Except.error _, Except.ok _ => isFalse (fun hc => Except.noConfusion hc)
  | Except.ok _, Except.error _ => isFalse (fun hc => Except.noConfusion hc)

/-- Worked background of the docstring example of `perform_ora` (ten
genes). -/
def exBackground : List String :=
  ["g1", "g2", "g3", "g4", "g5", "g6", "g7", "g8", "g9", "g10"]

/-- Worked study set of the docstring example. -/
def exStudy : List String := ["g1", "g3", "g5", "g7"]

/-- Worked gene sets of the docstring example. -/
def exGeneSets : List (String × List String) :=
  [("A", ["g1", "g2", "g3"]), ("B", ["g3", "g4", "g6"]),
   ("C", ["g7", "g8", "g9", "g10"]), ("D", ["g2", "g5", "g8"])]

/-- Study collection of the all-significant example: the single term
coincides with the study and gives p = 1/252. -/
def allSigStudy : List String := ["g1", "g2", "g3", "g4", "g5"]

/-- Gene sets of the all-significant example. -/
def allSigGeneSets : List (String × List String) :=
  [("A", ["g1", "g2", "g3", "g4", "g5"])]

/-- The single highly significant output row of the all-significant
example. -/
def allSigRow : OutRow String :=
  { term := "A", study_count := 5, background_count := 5,
    p_value := Rat.divInt 1 252, FDR := Rat.divInt 1 252,
    study_genes := ["g1", "g2", "g3", "g4", "g5"] }

/-- Scatter example row with ratio 1/2. -/
def scatterLow : ScatterRow :=
  { name := "low", study_count := 1, background_count := 2, pvalue := 1 }

/-- Scatter example row with ratio 1. -/
def scatterHigh : ScatterRow :=
  { name := "high", study_count := 1, background_count := 1, pvalue := 1 }

/-- The three-row pie-chart input of the specification example. -/
def pieNamesSmall : List String := ["CDS;x", "intron;y", "exon;z"]

/-- A pie-chart input that carries all three dropped categories plus the
four expected transcript regions. -/
def pieNamesFull : List String :=
  ["CDS;a", "five_prime_utr;b", "intron;c", "three_prime_utr;d",
   "exon;e", "start_codon;f", "stop_codon;g"]

/-- Counts of the retained categories of the `pieNamesFull` example. -/
def pieFullCounts : List (String × ℕ) :=
  [("CDS", 1), ("five_prime_utr", 1), ("intron", 1), ("three_prime_utr", 1)]

theorem qdiv_eq_div (a b : ℚ) : qdiv a b = a / b := by
  unfold qdiv
  rw [Rat.divInt_eq_div]
  rcases eq_or_ne b 0 with hb | hb
  · subst hb
    simp
  · have hbn : (b.num : ℚ) ≠ 0 := by
      exact_mod_cast Rat.num_ne_zero.mpr hb
    have had : (a.den : ℚ) ≠ 0 := by
      exact_mod_cast a.den_nz
    have hbd : (b.den : ℚ) ≠ 0 := by
      exact_mod_cast b.den_nz
    have ha' : (a.num : ℚ) = a * a.den := (div_eq_iff had).mp (Rat.num_div_den a)
    have hb' : (b.num : ℚ) = b * b.den := (div_eq_iff hbd).mp (Rat.num_div_den b)
    have hden : ((a.den : ℚ) * (b.num : ℚ)) ≠ 0 := mul_ne_zero had hbn
    push_cast
    rw [div_eq_div_iff hden hb, ha', hb']
    ring

theorem setInter_nodup {α : Type} [DecidableEq α] (xs ys : List α) : (setInter xs ys).Nodup :=
  (List.nodup_dedup xs).filter _

theorem mem_setInter {α : Type} [DecidableEq α] {a : α} {xs ys : List α} :
    a ∈ setInter xs ys ↔ a ∈ xs ∧ a ∈ ys := by
  simp [setInter, List.mem_filter, List.mem_dedup]

theorem setInter_toFinset {α : Type} [DecidableEq α] (xs ys : List α) :
    (setInter xs ys).toFinset = xs.toFinset ∩ ys.toFinset := by
  ext a
  simp [mem_setInter]

theorem setInter_length {α : Type} [DecidableEq α] (xs ys : List α) :
    (setInter xs ys).length = (xs.toFinset ∩ ys.toFinset).card := by
  rw [← setInter_toFinset, List.toFinset_card_of_nodup (setInter_nodup xs ys)]

theorem setInter_nil_right {α : Type} [DecidableEq α] (xs : List α) : setInter xs ([] : List α) = [] := by
  simp [setInter]

theorem setInter_nil_left {α : Type} [DecidableEq α] (ys : List α) : setInter ([] : List α) ys = [] := by
  simp [setInter]

theorem length_dedup_eq_card {α : Type} [DecidableEq α] (l : List α) :
    l.dedup.length = l.toFinset.card := by
  rw [← List.toFinset_card_of_nodup (List.nodup_dedup l)]
  congr 1
  ext a
  simp [List.mem_dedup]

theorem oraRecord_k_card {α : Type} [DecidableEq α] (study bg : List α) (t : String) (genes : List α) :
    (oraRecord study bg t genes).k
      = (study.toFinset ∩ (genes.toFinset ∩ bg.toFinset)).card := by
  show (setInter study (setInter genes bg)).length = _
  rw [setInter_length, setInter_toFinset]

theorem oraRecord_K_card {α : Type} [DecidableEq α] (study bg : List α) (t : String) (genes : List α) :
    (oraRecord study bg t genes).K = (genes.toFinset ∩ bg.toFinset).card :=
  setInter_length genes bg

theorem oraRecord_n_card {α : Type} [DecidableEq α] (study bg : List α) (t : String) (genes : List α) :
    (oraRecord study bg t genes).n = (study.toFinset ∩ bg.toFinset).card :=
  setInter_length study bg

theorem oraRecord_N_card {α : Type} [DecidableEq α] (study bg : List α) (t : String) (genes : List α) :
    (oraRecord study bg t genes).N = bg.toFinset.card :=
  length_dedup_eq_card bg

theorem oraRecord_k_le_K {α : Type} [DecidableEq α] (study bg : List α) (t : String) (genes : List α) :
    (oraRecord study bg t genes).k ≤ (oraRecord study bg t genes).K := by
  rw [oraRecord_k_card, oraRecord_K_card]
  exact Finset.card_le_card Finset.inter_subset_right

theorem oraRecord_k_le_n {α : Type} [DecidableEq α] (study bg : List α) (t : String) (genes : List α) :
    (oraRecord study bg t genes).k ≤ (oraRecord study bg t genes).n := by
  rw [oraRecord_k_card, oraRecord_n_card]
  exact Finset.card_le_card
    (Finset.inter_subset_inter le_rfl Finset.inter_subset_right)

theorem oraRecord_K_le_N {α : Type} [DecidableEq α] (study bg : List α) (t : String) (genes : List α) :
    (oraRecord study bg t genes).K ≤ (oraRecord study bg t genes).N := by
  rw [oraRecord_K_card, oraRecord_N_card]
  exact Finset.card_le_card Finset.inter_subset_right

theorem oraRecord_n_le_N {α : Type} [DecidableEq α] (study bg : List α) (t : String) (genes : List α) :
    (oraRecord study bg t genes).n ≤ (oraRecord study bg t genes).N := by
  rw [oraRecord_n_card, oraRecord_N_card]
  exact Finset.card_le_card Finset.inter_subset_right

theorem oraRecord_p_value {α : Type} [DecidableEq α] (study bg : List α) (t : String) (genes : List α) :
    (oraRecord study bg t genes).p_value
      = oraPValue (oraRecord study bg t genes).k (oraRecord study bg t genes).K
          (oraRecord study bg t genes).n (oraRecord study bg t genes).N := rfl

theorem choose_mul_sum (K M n : ℕ) :
    ∑ i ∈ Finset.range (n + 1), K.choose i * M.choose (n - i)
      = (K + M).choose n := by
  rw [Nat.add_choose_eq, Finset.Nat.sum_antidiagonal_eq_sum_range_succ_mk]

theorem hypergeomPMF_eq_div (N K n i : ℕ) :
    hypergeomPMF N K n i
      = ((K.choose i * (N - K).choose (n - i) : ℕ) : ℚ) / ((N.choose n : ℕ) : ℚ) := by
  unfold hypergeomPMF
  rw [Rat.divInt_eq_div]
  push_cast
  ring

theorem hypergeomPMF_nonneg (N K n i : ℕ) : 0 ≤ hypergeomPMF N K n i := by
  rw [hypergeomPMF_eq_div]
  exact div_nonneg (Nat.cast_nonneg _) (Nat.cast_nonneg _)

theorem sum_hypergeomPMF_full {N K n : ℕ} (hK : K ≤ N) (hn : n ≤ N) :
    ∑ i ∈ Finset.range (n + 1), hypergeomPMF N K n i = 1 := by
  have hpos : (0 : ℚ) < (N.choose n : ℕ) := by
    exact_mod_cast Nat.choose_pos hn
  simp only [hypergeomPMF_eq_div]
  rw [← Finset.sum_div, ← Nat.cast_sum, choose_mul_sum, Nat.add_sub_cancel' hK]
  exact div_self (ne_of_gt hpos)

theorem hypergeomTail_nonneg (N K n k : ℕ) : 0 ≤ hypergeomTail N K n k :=
  Finset.sum_nonneg (fun i _ => hypergeomPMF_nonneg N K n i)

theorem hypergeomTail_le_one {N K n : ℕ} (k : ℕ) (hK : K ≤ N) (hn : n ≤ N) :
    hypergeomTail N K n k ≤ 1 := by
  rw [← sum_hypergeomPMF_full hK hn]
  refine Finset.sum_le_sum_of_subset_of_nonneg ?_
    (fun i _ _ => hypergeomPMF_nonneg N K n i)
  intro i hi
  rw [Finset.mem_Icc] at hi
  rw [Finset.mem_range]
  exact Nat.lt_succ_of_le (le_trans hi.2 (min_le_left n K))

theorem oraPValue_nonneg (k K n N : ℕ) : 0 ≤ oraPValue k K n N := by
  unfold oraPValue
  split
  · exact zero_le_one
  · exact hypergeomTail_nonneg N K n k

theorem oraPValue_le_one {K n N : ℕ} (k : ℕ) (hK : K ≤ N) (hn : n ≤ N) :
    oraPValue k K n N ≤ 1 := by
  unfold oraPValue
  split
  · exact le_rfl
  · exact hypergeomTail_le_one k hK hn

theorem oraPValue_zero_draws (K N : ℕ) : oraPValue 0 K 0 N = 1 := by
  unfold oraPValue
  split
  · rfl
  · unfold hypergeomTail
    simp [hypergeomPMF]

theorem oraRecord_p_value_nonneg {α : Type} [DecidableEq α]
    (study bg : List α) (t : String) (genes : List α) :
    0 ≤ (oraRecord study bg t genes).p_value :=
  oraPValue_nonneg _ _ _ _

theorem oraRecord_p_value_le_one {α : Type} [DecidableEq α]
    (study bg : List α) (t : String) (genes : List α) :
    (oraRecord study bg t genes).p_value ≤ 1 :=
  oraPValue_le_one _ (oraRecord_K_le_N study bg t genes)
    (oraRecord_n_le_N study bg t genes)

theorem findVal_eq_of_mem {j : ℕ} {v : ℚ} :
    ∀ {l : List (ℕ × ℚ)}, (l.map Prod.fst).Nodup → (j, v) ∈ l →
      findVal j l = some v := by
  intro l
  induction l with
  | nil => intro _ h; simp at h
  | cons x rest ih =>
    intro hnd hmem
    obtain ⟨i, q⟩ := x
    rw [List.map_cons] at hnd
    rcases List.mem_cons.mp hmem with heq | htail
    · cases heq
      simp [findVal]
    · have hne : i ≠ j := by
        intro h
        subst h
        exact (List.nodup_cons.mp hnd).1
          (List.mem_map.mpr ⟨(i, v), htail, rfl⟩)
      simp only [findVal, if_neg hne]
      exact ih (List.nodup_cons.mp hnd).2 htail

theorem findVal_mem {j : ℕ} {v : ℚ} :
    ∀ {l : List (ℕ × ℚ)}, findVal j l = some v → (j, v) ∈ l := by
  intro l
  induction l with
  | nil => intro h; simp [findVal] at h
  | cons x rest ih =>
    intro h
    obtain ⟨i, q⟩ := x
    by_cases hij : i = j
    · subst hij
      have h' : q = v := by simpa [findVal] using h
      subst h'
      exact List.mem_cons_self _ _
    · simp only [findVal, if_neg hij] at h
      exact List.mem_cons_of_mem _ (ih h)

theorem bhCore_cons (m i j : ℕ) (p : ℚ) (rest : List (ℕ × ℚ)) :
    bhCore m i ((j, p) :: rest) =
      (match bhCore m (i + 1) rest with
      | [] => [(j, qdiv (p * (m : ℚ)) ((i + 1 : ℕ) : ℚ))]
      | (j', q') :: t =>
          (j, min (qdiv (p * (m : ℚ)) ((i + 1 : ℕ) : ℚ)) q') :: (j', q') :: t) :=
  rfl

theorem bhCore_length (m : ℕ) :
    ∀ (i : ℕ) (l : List (ℕ × ℚ)), (bhCore m i l).length = l.length := by
  intro i l
  induction l generalizing i with
  | nil => rfl
  | cons x rest ih =>
    obtain ⟨j, p⟩ := x
    have IH := ih (i + 1)
    rw [bhCore_cons]
    rcases h : bhCore m (i + 1) rest with _ | ⟨⟨j', q'⟩, t⟩
    · rw [h] at IH
      have h0 : rest.length = 0 := by simpa using IH.symm
      simp [h0]
    · rw [h] at IH
      simp only [List.length_cons] at IH ⊢
      omega

theorem bhCore_fst (m : ℕ) :
    ∀ (i : ℕ) (l : List (ℕ × ℚ)),
      (bhCore m i l).map Prod.fst = l.map Prod.fst := by
  intro i l
  induction l generalizing i with
  | nil => rfl
  | cons x rest ih =>
    obtain ⟨j, p⟩ := x
    have IH := ih (i + 1)
    rw [bhCore_cons]
    rcases h : bhCore m (i + 1) rest with _ | ⟨⟨j', q'⟩, t⟩
    · have hnil : rest = [] := by
        have := bhCore_length m (i + 1) rest
        rw [h] at this
        exact List.eq_nil_of_length_eq_zero this.symm
      subst hnil
      simp
    · rw [h] at IH
      simp only [List.map_cons] at IH ⊢
      exact congrArg (j :: ·) IH

/-- The raw BH value `p * m / (i + 1)` dominates `p` when `p ≥ 0` and
`i + 1 ≤ m`. -/
theorem bh_raw_ge (m i : ℕ) (p : ℚ) (hp : 0 ≤ p) (him : i + 1 ≤ m) :
    p ≤ qdiv (p * (m : ℚ)) ((i + 1 : ℕ) : ℚ) := by
  rw [qdiv_eq_div]
  have hipos : (0 : ℚ) < ((i + 1 : ℕ) : ℚ) := by positivity
  have hfac : (1 : ℚ) ≤ (m : ℚ) / ((i + 1 : ℕ) : ℚ) := by
    rw [one_le_div hipos]
    exact_mod_cast him
  calc p = p * 1 := (mul_one p).symm
    _ ≤ p * ((m : ℚ) / ((i + 1 : ℕ) : ℚ)) := by
        exact mul_le_mul_of_nonneg_left hfac hp
    _ = p * (m : ℚ) / ((i + 1 : ℕ) : ℚ) := (mul_div_assoc p _ _).symm

theorem bhCore_forall₂ (m : ℕ) :
    ∀ (i : ℕ) (l : List (ℕ × ℚ)),
      i + l.length ≤ m →
      (∀ x ∈ l, 0 ≤ x.2) →
      List.Sorted (fun a b : ℕ × ℚ => a.2 ≤ b.2) l →
      List.Forall₂ (fun a b : ℕ × ℚ => a.1 = b.1 ∧ a.2 ≤ b.2) l
        (bhCore m i l) := by
  intro i l
  induction l generalizing i with
  | nil => intro _ _ _; exact List.Forall₂.nil
  | cons x rest ih =>
    intro hlen h0 hs
    obtain ⟨j, p⟩ := x
    have hlen' : i + 1 + rest.length ≤ m := by
      simp only [List.length_cons] at hlen
      omega
    have h0' : ∀ x ∈ rest, 0 ≤ x.2 := fun x hx => h0 x (List.mem_cons_of_mem _ hx)
    have hs' := (List.sorted_cons.mp hs).2
    have hhead := (List.sorted_cons.mp hs).1
    have h0p : 0 ≤ p := h0 (j, p) (List.mem_cons_self _ _)
    have hraw : p ≤ qdiv (p * (m : ℚ)) ((i + 1 : ℕ) : ℚ) := by
      refine bh_raw_ge m i p h0p ?_
      simp only [List.length_cons] at hlen
      omega
    have IH := ih (i + 1) hlen' h0' hs'
    rw [bhCore_cons]
    rcases h : bhCore m (i + 1) rest with _ | ⟨⟨j', q'⟩, t⟩
    · have hnil : rest = [] := by
        have := bhCore_length m (i + 1) rest
        rw [h] at this
        exact List.eq_nil_of_length_eq_zero this.symm
      subst hnil
      exact List.Forall₂.cons ⟨rfl, hraw⟩ List.Forall₂.nil
    · rw [h] at IH
      rcases List.forall₂_cons_right_iff.mp IH with ⟨a, l', ⟨hkey, hle⟩, _, hrest⟩
      have hpq' : p ≤ q' := by
        refine le_trans (hhead a ?_) hle
        rw [hrest]
        exact List.mem_cons_self _ _
      exact List.Forall₂.cons ⟨rfl, le_min hraw hpq'⟩ IH

theorem bhCore_ge_one (m : ℕ) :
    ∀ (i : ℕ) (l : List (ℕ × ℚ)),
      i + l.length ≤ m →
      (∀ x ∈ l, x.2 = (1 : ℚ)) →
      ∀ y ∈ bhCore m i l, (1 : ℚ) ≤ y.2 := by
  intro i l
  induction l generalizing i with
  | nil => intro _ _ y hy; simp [bhCore] at hy
  | cons x rest ih =>
    intro hlen h1 y hy
    obtain ⟨j, p⟩ := x
    have hp1 : p = 1 := h1 (j, p) (List.mem_cons_self _ _)
    have hraw : (1 : ℚ) ≤ qdiv (p * (m : ℚ)) ((i + 1 : ℕ) : ℚ) := by
      have := bh_raw_ge m i p (by rw [hp1]; norm_num) (by
        simp only [List.length_cons] at hlen
        omega)
      rw [hp1] at this ⊢
      exact this
    have hlen' : i + 1 + rest.length ≤ m := by
      simp only [List.length_cons] at hlen
      omega
    have h1' : ∀ x ∈ rest, x.2 = (1 : ℚ) :=
      fun x hx => h1 x (List.mem_cons_of_mem _ hx)
    have IH := ih (i + 1) hlen' h1'
    rw [bhCore_cons] at hy
    rcases h : bhCore m (i + 1) rest with _ | ⟨⟨j', q'⟩, t⟩
    · rw [h] at hy
      simp only [List.mem_singleton] at hy
      subst hy
      exact hraw
    · rw [h] at IH hy
      simp only [List.mem_cons] at hy
      rcases hy with rfl | hy
      · have hq' : (1 : ℚ) ≤ q' :=
          IH (j', q') (List.mem_cons_self _ _)
        exact le_min hraw hq'
      · rcases hy with rfl | hy
        · exact IH (j', q') (List.mem_cons_self _ _)
        · exact IH y (List.mem_cons_of_mem _ hy)

theorem bhSorted_perm (ps : List ℚ) :
    (bhSorted ps).Perm ((List.range ps.length).zip ps) :=
  List.perm_insertionSort _ _

theorem bhSorted_length (ps : List ℚ) : (bhSorted ps).length = ps.length := by
  rw [(bhSorted_perm ps).length_eq, List.length_zip, List.length_range]
  exact min_self _

theorem bhSorted_sorted (ps : List ℚ) :
    (bhSorted ps).Sorted (fun a b : ℕ × ℚ => a.2 ≤ b.2) :=
  List.sorted_insertionSort _ _

theorem bhSorted_snd_mem {ps : List ℚ} {x : ℕ × ℚ} (hx : x ∈ bhSorted ps) :
    x.2 ∈ ps := by
  obtain ⟨x1, x2⟩ := x
  exact (List.of_mem_zip ((bhSorted_perm ps).mem_iff.mp hx)).2

theorem bhAdj_keys (ps : List ℚ) :
    (bhAdj ps).map Prod.fst = (bhSorted ps).map Prod.fst := by
  unfold bhAdj
  rw [List.map_map]
  exact bhCore_fst _ _ _

theorem bhAdj_keys_nodup (ps : List ℚ) :
    ((bhAdj ps).map Prod.fst).Nodup := by
  rw [bhAdj_keys]
  have hperm : ((bhSorted ps).map Prod.fst).Perm
      (((List.range ps.length).zip ps).map Prod.fst) :=
    (bhSorted_perm ps).map Prod.fst
  rw [hperm.nodup_iff, List.map_fst_zip _ _ (by rw [List.length_range])]
  exact List.nodup_range _

theorem bhAdjust_length (ps : List ℚ) : (bhAdjust ps).length = ps.length := by
  unfold bhAdjust
  rw [List.length_map, List.length_range]

/-- The BH-adjusted value dominates the raw p-value at every position,
provided all p-values lie in `[0, 1]`. -/
theorem bhAdjust_ge (ps : List ℚ) (h0 : ∀ p ∈ ps, 0 ≤ p)
    (h1 : ∀ p ∈ ps, p ≤ 1) (j : ℕ) (hj : j < ps.length)
    (hj' : j < (bhAdjust ps).length) : ps[j] ≤ (bhAdjust ps)[j] := by
  have hzlen : j < ((List.range ps.length).zip ps).length := by
    rw [List.length_zip, List.length_range, min_self]
    exact hj
  have hmemz : (j, ps[j]) ∈ (List.range ps.length).zip ps := by
    have hz : ((List.range ps.length).zip ps)[j] = (j, ps[j]) := by
      rw [List.getElem_zip, List.getElem_range]
    exact hz ▸ List.getElem_mem hzlen
  have hmem_s : (j, ps[j]) ∈ bhSorted ps :=
    (bhSorted_perm ps).mem_iff.mpr hmemz
  obtain ⟨t, ht, hteq⟩ := List.mem_iff_getElem.mp hmem_s
  have hF := bhCore_forall₂ ps.length 0 (bhSorted ps)
    (by rw [bhSorted_length]; omega)
    (fun x hx => h0 x.2 (bhSorted_snd_mem hx)) (bhSorted_sorted ps)
  obtain ⟨hlenF, hpt⟩ := List.forall₂_iff_get.mp hF
  have htlt : t < (bhCore ps.length 0 (bhSorted ps)).length := by
    rw [← hlenF]
    exact ht
  have hrel := hpt t ht htlt
  set y := (bhCore ps.length 0 (bhSorted ps)).get ⟨t, htlt⟩ with hy
  have hsget : (bhSorted ps).get ⟨t, ht⟩ = (j, ps[j]) := by
    rw [List.get_eq_getElem]
    exact hteq
  rw [hsget] at hrel
  have hfst : y.1 = j := hrel.1.symm
  have hsnd : ps[j] ≤ y.2 := hrel.2
  have hymem : y ∈ bhCore ps.length 0 (bhSorted ps) := List.get_mem _ _ _
  have hadj : (j, min y.2 1) ∈ bhAdj ps := by
    unfold bhAdj
    refine List.mem_map.mpr ⟨y, hymem, ?_⟩
    rw [hfst]
  have hfind : findVal j (bhAdj ps) = some (min y.2 1) :=
    findVal_eq_of_mem (bhAdj_keys_nodup ps) hadj
  have hrhs : (bhAdjust ps)[j] = (findVal j (bhAdj ps)).getD 1 := by
    unfold bhAdjust
    rw [List.getElem_map, List.getElem_range]
  rw [hrhs, hfind, Option.getD_some]
  exact le_min hsnd (h1 ps[j] (List.getElem_mem hj))

/-- If every p-value is exactly 1, every BH-adjusted value is exactly 1. -/
theorem bhAdjust_all_one (ps : List ℚ) (h : ∀ p ∈ ps, p = 1) :
    ∀ q ∈ bhAdjust ps, q = 1 := by
  intro q hq
  unfold bhAdjust at hq
  rcases List.mem_map.mp hq with ⟨j, hjmem, rfl⟩
  rcases hf : findVal j (bhAdj ps) with _ | v
  · rfl
  · have hmem := findVal_mem hf
    unfold bhAdj at hmem
    rcases List.mem_map.mp hmem with ⟨y, hy, heq⟩
    have h1y : (1 : ℚ) ≤ y.2 :=
      bhCore_ge_one ps.length 0 (bhSorted ps)
        (by rw [bhSorted_length]; omega)
        (fun x hx => h x.2 (bhSorted_snd_mem hx)) y hy
    have hv : v = min y.2 1 := by
      have := congrArg Prod.snd heq
      simpa using this.symm
    rw [Option.getD_some, hv]
    exact min_eq_right h1y

theorem perform_ora_nil {α : Type} [DecidableEq α] (study bg : List α) :
    perform_ora study [] bg = Except.error emptyGeneSetsError := rfl

theorem perform_ora_eq_of_ok {α : Type} [DecidableEq α]
    {study bg : List α} {gs : List (String × List α)} {rows : List (OutRow α)}
    (hok : perform_ora study gs bg = Except.ok rows) :
    rows = ((annotatedRows study gs bg).insertionSort
        (fun a b => a.FDR ≤ b.FDR)).filter
      (fun r => decide (r.FDR ≤ fdrThreshold)) := by
  by_cases h : gs = []
  · subst h
    simp [perform_ora, emptyGeneSetsError] at hok
  · simp only [perform_ora, if_neg h, Except.ok.injEq] at hok
    exact hok.symm

/-- Every row of the annotated table arises from the record and adjusted
p-value at one common position. -/
theorem annotatedRows_mem {α : Type} [DecidableEq α]
    {study bg : List α} {gs : List (String × List α)} {r : OutRow α}
    (hr : r ∈ annotatedRows study gs bg) :
    ∃ (i : ℕ) (hi : i < (oraRecords study gs bg).length)
      (hif : i < (bhAdjust ((oraRecords study gs bg).map
        OraRecord.p_value)).length),
      r = mkOutRow ((oraRecords study gs bg)[i])
        ((bhAdjust ((oraRecords study gs bg).map OraRecord.p_value))[i]) := by
  rcases List.mem_map.mp hr with ⟨rf, hrf, hrfl⟩
  rcases List.mem_iff_getElem.mp hrf with ⟨i, hi, heq⟩
  have hi1 : i < (oraRecords study gs bg).length := by
    rw [List.length_zip] at hi
    exact lt_of_lt_of_le hi (min_le_left _ _)
  have hi2 : i < (bhAdjust ((oraRecords study gs bg).map
      OraRecord.p_value)).length := by
    rw [List.length_zip] at hi
    exact lt_of_lt_of_le hi (min_le_right _ _)
  refine ⟨i, hi1, hi2, ?_⟩
  rw [← hrfl, ← heq, List.getElem_zip]

theorem oraRecords_p_bounds {α : Type} [DecidableEq α]
    (study bg : List α) (gs : List (String × List α)) :
    ∀ p ∈ (oraRecords study gs bg).map OraRecord.p_value,
      0 ≤ p ∧ p ≤ 1 := by
  intro p hp
  rcases List.mem_map.mp hp with ⟨rec, hrec, hrfl⟩
  rcases List.mem_map.mp hrec with ⟨ts, _, hts⟩
  subst hrfl
  rw [← hts]
  exact ⟨oraRecord_p_value_nonneg study bg ts.1 ts.2,
    oraRecord_p_value_le_one study bg ts.1 ts.2⟩

/-- In the annotated table the FDR column dominates the raw p-value
column pointwise. -/
theorem annotatedRows_p_le_FDR {α : Type} [DecidableEq α]
    (study bg : List α) (gs : List (String × List α)) :
    ∀ r ∈ annotatedRows study gs bg, r.p_value ≤ r.FDR := by
  intro r hr
  rcases annotatedRows_mem hr with ⟨i, hi, hif, hrfl⟩
  subst hrfl
  show ((oraRecords study gs bg)[i]).p_value ≤ _
  have hips : i < ((oraRecords study gs bg).map OraRecord.p_value).length := by
    rw [List.length_map]
    exact hi
  have hmap : ((oraRecords study gs bg).map OraRecord.p_value)[i]
      = ((oraRecords study gs bg)[i]).p_value := List.getElem_map _
  have := bhAdjust_ge ((oraRecords study gs bg).map OraRecord.p_value)
    (fun p hp => (oraRecords_p_bounds study bg gs p hp).1)
    (fun p hp => (oraRecords_p_bounds study bg gs p hp).2)
    i hips hif
  rw [hmap] at this
  exact this

theorem perform_ora_sorted {α : Type} [DecidableEq α]
    {study bg : List α} {gs : List (String × List α)} {rows : List (OutRow α)}
    (hok : perform_ora study gs bg = Except.ok rows) :
    rows.Sorted (fun a b : OutRow α => a.FDR ≤ b.FDR) := by
  rw [perform_ora_eq_of_ok hok]
  exact (List.sorted_insertionSort _ _).filter _

theorem perform_ora_perm_filter {α : Type} [DecidableEq α]
    {study bg : List α} {gs : List (String × List α)} {rows : List (OutRow α)}
    (hok : perform_ora study gs bg = Except.ok rows) :
    rows.Perm ((annotatedRows study gs bg).filter
      (fun r => decide (r.FDR ≤ fdrThreshold))) := by
  rw [perform_ora_eq_of_ok hok]
  exact (List.perm_insertionSort _ _).filter _

theorem annotatedRows_FDR_mem {α : Type} [DecidableEq α]
    {study bg : List α} {gs : List (String × List α)} {r : OutRow α}
    (hr : r ∈ annotatedRows study gs bg) :
    r.FDR ∈ bhAdjust ((oraRecords study gs bg).map OraRecord.p_value) := by
  rcases annotatedRows_mem hr with ⟨i, hi, hif, hrfl⟩
  subst hrfl
  exact List.getElem_mem hif

theorem not_one_le_fdrThreshold : ¬ ((1 : ℚ) ≤ fdrThreshold) := by
  rw [fdrThreshold, Rat.divInt_eq_div]
  norm_num

/-- When every per-term raw p-value is 1, every BH-adjusted value is 1
and the final `FDR ≤ 0.05` filter removes all rows. -/
theorem perform_ora_all_p_one {α : Type} [DecidableEq α]
    {study bg : List α} {gs : List (String × List α)}
    (hgs : gs ≠ [])
    (hall : ∀ rec ∈ oraRecords study gs bg, rec.p_value = 1) :
    perform_ora study gs bg = Except.ok [] := by
  have hFDR : ∀ r ∈ annotatedRows study gs bg, r.FDR = 1 := by
    intro r hr
    refine bhAdjust_all_one _ ?_ _ (annotatedRows_FDR_mem hr)
    intro p hp
    rcases List.mem_map.mp hp with ⟨rec, hrec, hrfl⟩
    rw [← hrfl]
    exact hall rec hrec
  rw [perform_ora, if_neg hgs]
  congr 1
  rw [List.filter_eq_nil_iff]
  intro r hr
  have hr' : r ∈ annotatedRows study gs bg :=
    (List.perm_insertionSort (fun a b : OutRow α => a.FDR ≤ b.FDR)
      (annotatedRows study gs bg)).mem_iff.mp hr
  rw [decide_eq_true_eq, hFDR r hr']
  exact not_one_le_fdrThreshold

/-- With an empty study or an empty background every per-term p-value is
1 (either `K = 0`, or `n = k = 0` and the upper tail from 0 is the mass
of the single support point 0). -/
theorem oraRecord_p_one_of_empty {α : Type} [DecidableEq α]
    (study bg : List α) (t : String) (genes : List α)
    (h : study = [] ∨ bg = []) :
    (oraRecord study bg t genes).p_value = 1 := by
  rcases h with h | h
  · subst h
    show oraPValue ((setInter ([] : List α) (setInter genes bg)).length) _
      ((setInter ([] : List α) bg).length) _ = 1
    rw [setInter_nil_left, setInter_nil_left]
    exact oraPValue_zero_draws _ _
  · subst h
    show oraPValue _ ((setInter genes ([] : List α)).length) _ _ = 1
    rw [setInter_nil_right]
    rfl

/-- C1: the per-term p-value of `perform_ora` is 1 when `K = 0` and the
hypergeometric upper-tail probability `P(X ≥ k)` (with population `N`,
`K` success states, `n` draws) otherwise; in particular every non-empty
term set disjoint from the background receives p-value 1. -/
theorem claim_C1 {α : Type} [DecidableEq α] (study bg : List α) (t : String)
    (genes : List α) :
    ((oraRecord study bg t genes).K = 0 →
      (oraRecord study bg t genes).p_value = 1) ∧
    ((oraRecord study bg t genes).K ≠ 0 →
      (oraRecord study bg t genes).p_value
        = hypergeomTail (oraRecord study bg t genes).N
            (oraRecord study bg t genes).K (oraRecord study bg t genes).n
            (oraRecord study bg t genes).k) ∧
    (genes ≠ [] → (∀ g ∈ genes, g ∉ bg) →
      (oraRecord study bg t genes).p_value = 1) := by
  refine ⟨?_, ?_, ?_⟩
  · intro h
    rw [oraRecord_p_value]
    unfold oraPValue
    rw [if_pos h]
  · intro h
    rw [oraRecord_p_value]
    unfold oraPValue
    rw [if_neg h]
  · intro _ hdisj
    have hK : (oraRecord study bg t genes).K = 0 := by
      show (setInter genes bg).length = 0
      rw [List.length_eq_zero, List.eq_nil_iff_forall_not_mem]
      intro g hg
      rcases mem_setInter.mp hg with ⟨h1, h2⟩
      exact hdisj g h1 h2
    rw [oraRecord_p_value]
    unfold oraPValue
    rw [if_pos hK]

/-- Witness for C1: concrete instances discharging each hypothesis — a
disjoint non-empty term set (p-value 1 through `K = 0`), a term set
missing from the background, and a term set hitting the background
(p-value given by the hypergeometric tail). -/
theorem claim_C1_witness :
    (oraRecord ["s1"] ["b1"] "T" ["x1"]).p_value = 1 ∧
    (oraRecord ["s1"] ["b1"] "V" ["x1"]).p_value = 1 ∧
    (oraRecord ["b1"] ["b1"] "U" ["b1"]).p_value
      = hypergeomTail (oraRecord ["b1"] ["b1"] "U" ["b1"]).N
          (oraRecord ["b1"] ["b1"] "U" ["b1"]).K
          (oraRecord ["b1"] ["b1"] "U" ["b1"]).n
          (oraRecord ["b1"] ["b1"] "U" ["b1"]).k :=
  ⟨(claim_C1 ["s1"] ["b1"] "T" ["x1"]).2.2 (by decide) (by decide),
   (claim_C1 ["s1"] ["b1"] "V" ["x1"]).1 (by decide),
   (claim_C1 ["b1"] ["b1"] "U" ["b1"]).2.1 (by decide)⟩

/-- C2: a table returned by `perform_ora` is sorted ascending by the FDR
column and contains exactly the annotated rows with `FDR ≤ 0.05` (as a
permutation of their filtering); when every annotated row is significant
all rows are retained, and when every raw p-value is 1 the table is
empty. -/
theorem claim_C2 {α : Type} [DecidableEq α] (study : List α)
    (gs : List (String × List α)) (bg : List α) (rows : List (OutRow α))
    (hok : perform_ora study gs bg = Except.ok rows) :
    rows.Sorted (fun a b => a.FDR ≤ b.FDR) ∧
    rows.Perm ((annotatedRows study gs bg).filter
      (fun r => decide (r.FDR ≤ fdrThreshold))) ∧
    ((∀ r ∈ annotatedRows study gs bg, r.FDR ≤ fdrThreshold) →
      rows.Perm (annotatedRows study gs bg)) ∧
    ((∀ rec ∈ oraRecords study gs bg, rec.p_value = 1) → rows = []) := by
  refine ⟨perform_ora_sorted hok, perform_ora_perm_filter hok, ?_, ?_⟩
  · intro hall
    rw [perform_ora_eq_of_ok hok]
    have hself : ((annotatedRows study gs bg).insertionSort
          (fun a b => a.FDR ≤ b.FDR)).filter
        (fun r => decide (r.FDR ≤ fdrThreshold))
        = (annotatedRows study gs bg).insertionSort
          (fun a b => a.FDR ≤ b.FDR) := by
      rw [List.filter_eq_self]
      intro a ha
      exact decide_eq_true (hall a
        ((List.perm_insertionSort (fun a b : OutRow α => a.FDR ≤ b.FDR)
          (annotatedRows study gs bg)).mem_iff.mp ha))
    rw [hself]
    exact List.perm_insertionSort _ _
  · intro hall
    have hgs : gs ≠ [] := by
      intro h
      subst h
      rw [perform_ora_nil] at hok
      exact Except.noConfusion hok
    have h1 := perform_ora_all_p_one hgs hall
    rw [h1] at hok
    injection hok with h2
    exact h2.symm

/-- Witness for C2: the all-significant single-term example retains its
row, the all-p-1 example returns the empty table, and the returned table
is FDR-sorted. -/
theorem claim_C2_witness :
    ([allSigRow].Perm (annotatedRows allSigStudy allSigGeneSets exBackground)) ∧
    (([] : List (OutRow String)) = []) ∧
    ([allSigRow].Sorted (fun a b : OutRow String => a.FDR ≤ b.FDR)) :=
  ⟨(claim_C2 allSigStudy allSigGeneSets exBackground [allSigRow]
      (by with_unfolding_all decide)).2.2.1 (by with_unfolding_all decide),
   (claim_C2 ["g"] [("T", ["g"])] ([] : List String) []
      (by with_unfolding_all decide)).2.2.2 (by with_unfolding_all decide),
   (claim_C2 allSigStudy allSigGeneSets exBackground [allSigRow]
      (by with_unfolding_all decide)).1⟩

/-- C3 counterexample: with a non-empty study and background but an empty
`gene_sets` mapping, `perform_ora` does not return an empty table — it
fails (the empty `pd.DataFrame` has no p-value column, so the column
access raises a `KeyError`). -/
theorem claim_C3_counterexample :
    perform_ora ["g1"] ([] : List (String × List String)) ["g1"]
      = Except.error emptyGeneSetsError := rfl

/-- C3 as amended: an empty study collection or an empty background
collection yields a trivial (empty) result table without error, for any
non-empty `gene_sets`; an empty `gene_sets`, however, raises. -/
theorem claim_C3_amended {α : Type} [DecidableEq α] (study : List α)
    (gs : List (String × List α)) (bg : List α)
    (hgs : gs ≠ []) (h : study = [] ∨ bg = []) :
    perform_ora study gs bg = Except.ok [] := by
  refine perform_ora_all_p_one hgs ?_
  intro rec hrec
  rcases List.mem_map.mp hrec with ⟨ts, _, hrfl⟩
  rw [← hrfl]
  exact oraRecord_p_one_of_empty study bg ts.1 ts.2 h

/-- Witness for C3: a concrete run with an empty background succeeds with
an empty table. -/
theorem claim_C3_witness :
    perform_ora ["g"] [("T", ["g"])] ([] : List String) = Except.ok [] :=
  claim_C3_amended ["g"] [("T", ["g"])] [] (by decide) (Or.inr rfl)

/-- C4: `convert_ensembl_id` returns, in input order, the mapped target
identifiers of exactly those inputs whose version-stripped form is a key
of the mapping; unmapped identifiers are silently dropped (the function
is total, so no input can raise), and the worked example maps
`["ENSG001.3", "ENSG002"]` with `ENSG001 ↦ TP53` to `["TP53"]`. -/
theorem claim_C4 :
    (∀ (ids : List String) (emap : List (String × String)),
      convert_ensembl_id ids emap = convertSpecification ids emap) ∧
    convert_ensembl_id ["ENSG001.3", "ENSG002"] [("ENSG001", "TP53")]
      = ["TP53"] := by
  constructor
  · intro ids emap
    unfold convert_ensembl_id convertSpecification
    induction ids.map stripVersion with
    | nil => rfl
    | cons g gs ih =>
      rcases hf : assocFind g emap with _ | v
      · simp [List.filterMap_cons, List.filter_cons, hf, ih]
      · simp [List.filterMap_cons, List.filter_cons, hf, ih]
  · decide

/-- C5: the contingency counts of every record built by `perform_ora`
satisfy `0 ≤ k ≤ min(n, K)`, `0 ≤ K ≤ N` and `0 ≤ n ≤ N`, and on the
worked example (background g1..g10, study {g1,g3,g5,g7}) the four terms
get `(k, K, n, N)` = A:(2,3,4,10), B:(1,3,4,10), C:(1,4,4,10),
D:(1,3,4,10) — in particular A has k=2, K=3, n=4, N=10 and C has k=1,
K=4. -/
theorem claim_C5 :
    (∀ (study : List String) (gs : List (String × List String))
      (bg : List String), ∀ rec ∈ oraRecords study gs bg,
        0 ≤ rec.k ∧ rec.k ≤ min rec.n rec.K ∧ 0 ≤ rec.K ∧ rec.K ≤ rec.N ∧
          0 ≤ rec.n ∧ rec.n ≤ rec.N) ∧
    ((oraRecords exStudy exGeneSets exBackground).map
        (fun r => (r.term, r.k, r.K, r.n, r.N))
      = [("A", 2, 3, 4, 10), ("B", 1, 3, 4, 10),
         ("C", 1, 4, 4, 10), ("D", 1, 3, 4, 10)]) := by
  constructor
  · intro study gs bg rec hrec
    rcases List.mem_map.mp hrec with ⟨ts, _, hrfl⟩
    rw [← hrfl]
    exact ⟨Nat.zero_le _,
      le_min (oraRecord_k_le_n study bg ts.1 ts.2)
        (oraRecord_k_le_K study bg ts.1 ts.2),
      Nat.zero_le _, oraRecord_K_le_N study bg ts.1 ts.2,
      Nat.zero_le _, oraRecord_n_le_N study bg ts.1 ts.2⟩
  · decide

/-- Witness for C5: the invariant instantiated at the record of term A of
the worked example. -/
theorem claim_C5_witness :
    0 ≤ (oraRecord exStudy exBackground "A" ["g1", "g2", "g3"]).k ∧
    (oraRecord exStudy exBackground "A" ["g1", "g2", "g3"]).k
      ≤ min (oraRecord exStudy exBackground "A" ["g1", "g2", "g3"]).n
          (oraRecord exStudy exBackground "A" ["g1", "g2", "g3"]).K ∧
    0 ≤ (oraRecord exStudy exBackground "A" ["g1", "g2", "g3"]).K ∧
    (oraRecord exStudy exBackground "A" ["g1", "g2", "g3"]).K
      ≤ (oraRecord exStudy exBackground "A" ["g1", "g2", "g3"]).N ∧
    0 ≤ (oraRecord exStudy exBackground "A" ["g1", "g2", "g3"]).n ∧
    (oraRecord exStudy exBackground "A" ["g1", "g2", "g3"]).n
      ≤ (oraRecord exStudy exBackground "A" ["g1", "g2", "g3"]).N :=
  claim_C5.1 exStudy exGeneSets exBackground
    (oraRecord exStudy exBackground "A" ["g1", "g2", "g3"])
    (by with_unfolding_all decide)

/-- C6: in every table returned by `perform_ora`, the FDR-adjusted value
of each row is at least the corresponding raw p-value. -/
theorem claim_C6 {α : Type} [DecidableEq α] (study : List α)
    (gs : List (String × List α)) (bg : List α) (rows : List (OutRow α))
    (hok : perform_ora study gs bg = Except.ok rows) :
    ∀ r ∈ rows, r.p_value ≤ r.FDR := by
  intro r hr
  have hr' : r ∈ annotatedRows study gs bg :=
    List.mem_of_mem_filter ((perform_ora_perm_filter hok).mem_iff.mp hr)
  exact annotatedRows_p_le_FDR study bg gs r hr'

/-- Witness for C6: the single row of the all-significant example. -/
theorem claim_C6_witness : allSigRow.p_value ≤ allSigRow.FDR :=
  claim_C6 allSigStudy allSigGeneSets exBackground [allSigRow]
    (by with_unfolding_all decide) allSigRow (by decide)

/-- C7 counterexample: for the all-significant input the returned table
contains every input term, so the set of returned terms is the whole set
of input terms and not a strict subset of it. -/
theorem claim_C7_counterexample :
    perform_ora allSigStudy allSigGeneSets exBackground
      = Except.ok [allSigRow] ∧
    ¬ (([allSigRow].map OutRow.term).toFinset
        ⊂ (allSigGeneSets.map Prod.fst).toFinset) := by
  constructor
  · with_unfolding_all decide
  · decide

/-- C7 as amended: the terms of a table returned by `perform_ora` form a
subset — not necessarily strict — of the terms of `gene_sets`. -/
theorem claim_C7_amended {α : Type} [DecidableEq α] (study : List α)
    (gs : List (String × List α)) (bg : List α) (rows : List (OutRow α))
    (hok : perform_ora study gs bg = Except.ok rows) :
    ∀ r ∈ rows, r.term ∈ gs.map Prod.fst := by
  intro r hr
  have hr' : r ∈ annotatedRows study gs bg :=
    List.mem_of_mem_filter ((perform_ora_perm_filter hok).mem_iff.mp hr)
  rcases annotatedRows_mem hr' with ⟨i, hi, hif, hrfl⟩
  subst hrfl
  have hmem : (oraRecords study gs bg)[i] ∈ oraRecords study gs bg :=
    List.getElem_mem hi
  rcases List.mem_map.mp hmem with ⟨ts, hts, hts2⟩
  show ((oraRecords study gs bg)[i]).term ∈ _
  rw [← hts2]
  exact List.mem_map.mpr ⟨ts, hts, rfl⟩

/-- Witness for C7: the returned term of the all-significant example is
one of the input terms. -/
theorem claim_C7_witness : allSigRow.term ∈ allSigGeneSets.map Prod.fst :=
  claim_C7_amended allSigStudy allSigGeneSets exBackground [allSigRow]
    (by with_unfolding_all decide) allSigRow (by decide)

/-- C8 counterexample: with `top_n = 1` the plotted row is the filtered
row with the strictly smallest study/background ratio, not the largest —
the code sorts the ratio ascending and then takes `head(top_n)`. -/
theorem claim_C8_counterexample :
    scatterRows [scatterLow, scatterHigh] 1 none (some 1) = [scatterLow] ∧
    ratio_in_study scatterLow < ratio_in_study scatterHigh := by
  constructor
  · decide
  · decide

/-- C8 as amended: for a truthy `top_n` (non-`None` and non-zero) the
plotted rows are the first `top_n` rows of the filtered table sorted
ascending by `ratio_in_study`, i.e. the `top_n` terms with the SMALLEST
study-to-background ratio: every kept row has ratio at most that of every
dropped row. -/
theorem claim_C8_amended (rows : List ScatterRow) (msc : ℕ) (mp : Option ℚ)
    (t : ℕ) (ht : t ≠ 0) :
    scatterRows rows msc mp (some t) = (scatterSorted rows msc mp).take t ∧
    ∀ a ∈ scatterRows rows msc mp (some t),
      ∀ b ∈ (scatterSorted rows msc mp).drop t,
        ratio_in_study a ≤ ratio_in_study b := by
  have heq : scatterRows rows msc mp (some t)
      = (scatterSorted rows msc mp).take t := by
    show (if t = 0 then scatterSorted rows msc mp
      else (scatterSorted rows msc mp).take t) = _
    rw [if_neg ht]
  refine ⟨heq, ?_⟩
  intro a ha b hb
  rw [heq] at ha
  have hsorted : (scatterSorted rows msc mp).Sorted
      (fun x y => ratio_in_study x ≤ ratio_in_study y) := by
    unfold scatterSorted
    exact List.sorted_insertionSort _ _
  rw [← List.take_append_drop t (scatterSorted rows msc mp)] at hsorted
  rcases List.pairwise_append.mp hsorted with ⟨_, _, hcross⟩
  exact hcross a ha b hb

/-- Witness for C8: the two-row example with `top_n = 1`; the kept row is
the ascending-sorted head and its ratio is bounded by the dropped
row's. -/
theorem claim_C8_witness :
    (scatterRows [scatterLow, scatterHigh] 1 none (some 1)
      = (scatterSorted [scatterLow, scatterHigh] 1 none).take 1) ∧
    ratio_in_study scatterLow ≤ ratio_in_study scatterHigh :=
  ⟨(claim_C8_amended [scatterLow, scatterHigh] 1 none 1 (by decide)).1,
   (claim_C8_amended [scatterLow, scatterHigh] 1 none 1 (by decide)).2
     scatterLow (by decide) scatterHigh (by decide)⟩

/-- C9 counterexample: on rows with name fields `CDS;x`, `intron;y`,
`exon;z` alone, the script does not produce counts with the exon row
excluded — `Series.drop` raises a `KeyError` because `start_codon` and
`stop_codon` are not in the index. -/
theorem claim_C9_counterexample :
    pieCounts pieNamesSmall = Except.error pieKeyError := by decide

/-- C9 as amended: whenever the drop succeeds (which requires all three
of exon, start_codon, stop_codon to be present among the grouped
categories), the final counts contain no dropped category and retain
every other category with its count; on an input carrying the three
dropped categories and the four expected regions, the exon-tagged row is
excluded and each legend label shows the absolute count of its retained
category. -/
theorem claim_C9_amended (names : List String) (counts : List (String × ℕ))
    (hok : pieCounts names = Except.ok counts) :
    (∀ p ∈ counts, p.1 ∉ droppedCategories) ∧
    (∀ p ∈ categoryCounts names, p.1 ∉ droppedCategories → p ∈ counts) ∧
    (∀ p ∈ counts, p ∈ categoryCounts names) ∧
    pieCounts pieNamesFull = Except.ok pieFullCounts ∧
    legendLabels pieFullCounts
      = Except.ok ["CDS (n=1)", "5\x27UTR (n=1)", "Intron (n=1)",
          "3\x27UTR (n=1)"] := by
  have hcounts : counts = (categoryCounts names).filter
      (fun p => decide (p.1 ∉ droppedCategories)) := by
    unfold pieCounts dropCategories at hok
    by_cases h : droppedCategories.all
        (fun c => (categoryCounts names).any (fun p => decide (p.1 = c)))
    · rw [if_pos h] at hok
      injection hok with h2
      exact h2.symm
    · rw [if_neg h] at hok
      exact Except.noConfusion hok
  subst hcounts
  refine ⟨?_, ?_, ?_, by decide, by decide⟩
  · intro p hp
    exact of_decide_eq_true (List.mem_filter.mp hp).2
  · intro p hp hnd
    exact List.mem_filter.mpr ⟨hp, decide_eq_true hnd⟩
  · intro p hp
    exact (List.mem_filter.mp hp).1

/-- Witness for C9: the seven-row example; its CDS category survives the
drop with its count. -/
theorem claim_C9_witness :
    ("CDS" : String) ∉ droppedCategories ∧
    (("CDS", 1) : String × ℕ) ∈ pieFullCounts :=
  ⟨(claim_C9_amended pieNamesFull pieFullCounts (by decide)).1
     ("CDS", 1) (by decide),
   (claim_C9_amended pieNamesFull pieFullCounts (by decide)).2.1
     ("CDS", 1) (by decide) (by decide)⟩

/-- C10: the `study_genes` field of every record of `perform_ora` is, as
a set, the intersection of the study genes, the term's genes and the
background genes; its length is the record's `k`; every listed gene lies
in the background. -/
theorem claim_C10 {α : Type} [DecidableEq α] (study bg : List α)
    (t : String) (genes : List α) :
    ((oraRecord study bg t genes).study_genes.toFinset
      = study.toFinset ∩ genes.toFinset ∩ bg.toFinset) ∧
    (oraRecord study bg t genes).study_genes.length
      = (oraRecord study bg t genes).k ∧
    ∀ g ∈ (oraRecord study bg t genes).study_genes, g ∈ bg := by
  refine ⟨?_, rfl, ?_⟩
  · show (setInter study (setInter genes bg)).toFinset = _
    rw [setInter_toFinset, setInter_toFinset, Finset.inter_assoc]
  · intro g hg
    exact (mem_setInter.mp (mem_setInter.mp hg).2).2

/-- Witness for C10: the term-A record of the worked example; `g1` is one
of its contributing genes and lies in the background. -/
theorem claim_C10_witness :
    ((oraRecord exStudy exBackground "A" ["g1", "g2", "g3"]).study_genes.toFinset
      = exStudy.toFinset ∩ (["g1", "g2", "g3"] : List String).toFinset
          ∩ exBackground.toFinset) ∧
    ("g1" : String) ∈ exBackground :=
  ⟨(claim_C10 exStudy exBackground "A" ["g1", "g2", "g3"]).1,
   (claim_C10 exStudy exBackground "A" ["g1", "g2", "g3"]).2.2
     "g1" (by decide)⟩
